import Mathlib

/-!
Shallow embedding of `src/server.js` (port-to-port map generator).

Strings are modelled as `List Char` (`Str`).  JavaScript's number type is
modelled by `Nat`/`Int` (the programs only ever compute with small
non-negative integers such as stop ordinals, so the double-precision
representation is exact on every input the claims are about).
`null`/`undefined` are modelled by `Option`.  Unicode case mapping is
modelled by ASCII case mapping (the substrings the code searches for are
all ASCII).
-/

abbrev Str := List Char

/-- The WhiteSpace/LineTerminator set used by JavaScript `String.prototype.trim`
and by the regex class `\s`, identified by code point. -/
def jsWhitespace (c : Char) : Bool :=
  c.toNat = 32 || c.toNat = 9 || c.toNat = 10 || c.toNat = 13 || c.toNat = 11 ||
  c.toNat = 12 || c.toNat = 160 || c.toNat = 5760 ||
  (8192 ≤ c.toNat && c.toNat ≤ 8202) || c.toNat = 8232 || c.toNat = 8233 ||
  c.toNat = 8239 || c.toNat = 8287 || c.toNat = 12288 || c.toNat = 65279

/-- ASCII decimal digit test (JS regex `\d`). -/
def isDigitCh (c : Char) : Bool :=
  48 ≤ c.toNat && c.toNat ≤ 57

/-- Numeric value of an ASCII digit character. -/
def dv (c : Char) : Nat := c.toNat - 48

/-- `String.prototype.trim`: drop leading and trailing whitespace. -/
def jsTrim (s : Str) : Str :=
  ((s.dropWhile jsWhitespace).reverse.dropWhile jsWhitespace).reverse

/-- `String.prototype.toLowerCase` (ASCII fragment). -/
def toLowerStr (s : Str) : Str := s.map Char.toLower

/-- `String.prototype.includes(sub)`: `sub` occurs contiguously in `hay`. -/
def strIncludes (hay sub : Str) : Bool := decide (sub <:+: hay)

/-- `String.prototype.split(sep)` for a single-character separator. -/
def splitOn (sep : Char) : Str → List Str
  | [] => [[]]
  | c :: cs =>
    match splitOn sep cs with
    | [] => [[]]
    | h :: t => if c = sep then [] :: h :: t else (c :: h) :: t

/-- Value of a string of decimal digits, most significant first. -/
def digitsVal (l : Str) : Nat :=
  l.foldl (fun acc c => 10 * acc + dv c) 0

/-- Fuel-driven helper for decimal rendering; the fuel only serves to make
the recursion structural, any fuel above the argument gives the same
result (`natToDecAux_eq`). -/
def natToDecAux : Nat → Nat → Str
  | 0, _ => []
  | fuel + 1, n =>
    if n < 10 then [Nat.digitChar n]
    else natToDecAux fuel (n / 10) ++ [Nat.digitChar (n % 10)]

/-- Decimal rendering of a natural number (JS `String(n)` for a
non-negative integer). -/
def natToDec (n : Nat) : Str := natToDecAux (n + 1) n

/-- Decimal rendering of an integer (JS `String(i)`). -/
def intToDec (i : Int) : Str :=
  if i < 0 then '-' :: natToDec i.natAbs else natToDec i.toNat

/-- JS template rendering of a number that may be NaN
(`parseInt` failure renders as "NaN"). -/
def numToStr (o : Option Int) : Str :=
  match o with
  | none => "NaN".toList
  | some i => intToDec i

/-- Value of the longest leading run of decimal digits, if non-empty. -/
def leadingDigits (l : Str) : Option Nat :=
  let ds := l.takeWhile isDigitCh
  if ds.isEmpty then none else some (digitsVal ds)

/-- JS `parseInt(s, 10)`: skip leading whitespace, optional sign, then the
longest digit run; `none` models NaN. -/
def parseIntJS (s : Str) : Option Int :=
  match s.dropWhile jsWhitespace with
  | [] => none
  | c :: rest =>
    if c = '-' then (leadingDigits rest).map (fun n => -(n : Int))
    else if c = '+' then (leadingDigits rest).map (fun n => (n : Int))
    else (leadingDigits (c :: rest)).map (fun n => (n : Int))

/-- `String.prototype.padStart(2, "0")`. -/
def padStart2 (s : Str) : Str :=
  if 2 ≤ s.length then s else List.replicate (2 - s.length) '0' ++ s

/-- `String(n).padStart(2, "0")` for a natural number. -/
def pad2 (n : Nat) : Str := padStart2 (natToDec n)

/-- First run of decimal digits anywhere in the string
(the JS match `/(\d+)/`). -/
def firstDigitRun : Str → Option Str
  | [] => none
  | c :: cs => if isDigitCh c then some ((c :: cs).takeWhile isDigitCh)
               else firstDigitRun cs


/-! ### Data model (`src/server.js`) -/

/-- One normalized line-item custom field (`{ name, value }`). -/
structure LineItemProperty where
  name : Str
  value : Str
deriving DecidableEq, Repr

/-- One raw entry of `lineItem.properties` / `lineItem.customAttributes`:
each of `name`, `key`, `value` may be absent (`null`/`undefined`). -/
structure RawEntry where
  name : Option Str
  key : Option Str
  value : Option Str
deriving DecidableEq, Repr

/-- A line item; `none` models an absent or non-array field
(`Array.isArray` guard). -/
structure LineItem where
  properties : Option (List RawEntry)
  customAttributes : Option (List RawEntry)
deriving DecidableEq, Repr

/-- Webhook body. Only `line_items` is consulted by the resolution logic;
`id`/`name`/`email`/`financial_status` and the two headers are copied
verbatim into the debug log and are not touched by any claim. -/
structure WebhookBody where
  line_items : List LineItem
deriving DecidableEq, Repr

/-- A scraped dataset item: an object as an ordered association list
(key insertion order, string values). -/
abbrev SailingRecord := List (Str × Str)

/-! ### extractLineItemProperties -/

/-- `p?.name ?? p?.key` (primary shape) or `p?.key ?? p?.name`
(customAttributes shape). -/
def resolveName (useNameFirst : Bool) (e : RawEntry) : Option Str :=
  if useNameFirst then e.name.orElse (fun _ => e.key)
  else e.key.orElse (fun _ => e.name)

/-- The body of the push inside each loop:
`if (name && value != null && String(value).trim() !== "") props.push(...)`. -/
def normEntry (useNameFirst : Bool) (e : RawEntry) : Option LineItemProperty :=
  match resolveName useNameFirst e, e.value with
  | some nm, some v => if nm ≠ [] ∧ jsTrim v ≠ [] then some ⟨nm, v⟩ else none
  | _, _ => none

/-- `extractLineItemProperties`: both loops push into the same `props`
array, primary `properties` first, then `customAttributes`. -/
def extractLineItemProperties (li : LineItem) : List LineItemProperty :=
  let acc1 :=
    match li.properties with
    | some l => l.foldl (fun acc p => acc ++ (normEntry true p).toList) []
    | none => []
  match li.customAttributes with
  | some l => l.foldl (fun acc p => acc ++ (normEntry false p).toList) acc1
  | none => acc1

/-! ### getField / getActualPorts -/

/-- `getField`: value of the first field whose name contains the label,
case-insensitively; `null` if none. -/
def getField (fields : List LineItemProperty) (labelContains : Str) : Option Str :=
  (fields.find? (fun f => strIncludes (toLowerStr f.name) (toLowerStr labelContains))).map
    (fun f => f.value)

/-- Intermediate entry `{ n, value }` built by `getActualPorts`. -/
structure PortEntry where
  n : Nat
  value : Str
deriving DecidableEq, Repr

/-- `const m = String(f.name).match(/(\d+)/); const n = m ? parseInt(m[1], 10) : 9999`. -/
def ordOfName (name : Str) : Nat :=
  match firstDigitRun name with
  | some ds => digitsVal ds
  | none => 9999

/-- Filter predicate `(f.name || "").toLowerCase().includes("actual port")`. -/
def actualPortPred (f : LineItemProperty) : Bool :=
  strIncludes (toLowerStr f.name) ("actual port".toList)

/-- `getActualPorts`: filter → map to `{n, value}` → drop empty values →
stable sort by `n` ascending → values.  `Array.prototype.sort` is stable
and the comparator `a.n - b.n` is consistent (all `n` are numbers), so the
JS sort is modelled by stable insertion sort with `a.n ≤ b.n`. -/
def getActualPorts (fields : List LineItemProperty) : List Str :=
  let entries := (fields.filter actualPortPred).map
    (fun f => PortEntry.mk (ordOfName f.name) (jsTrim f.value))
  let kept := entries.filter (fun x => decide (0 < x.value.length))
  let sorted := List.insertionSort (fun a b => a.n ≤ b.n) kept
  sorted.map (fun x => x.value)

/-! ### Date normalization -/

/-- The test `/^\d{4}-\d{2}-\d{2}$/.test(s)`. -/
def isoTest : Str → Bool
  | [a, b, c, d, e, f, g, h, i, j] =>
    isDigitCh a && isDigitCh b && isDigitCh c && isDigitCh d && e = '-' &&
    isDigitCh f && isDigitCh g && h = '-' && isDigitCh i && isDigitCh j
  | _ => false

/-- The match `s.match(/^(\d{1,2})\/(\d{1,2})\/(\d{4})$/)`, returning the
three capture groups. -/
def mdyMatch (s : Str) : Option (Str × Str × Str) :=
  if (s.takeWhile isDigitCh).length = 0 ∨ 2 < (s.takeWhile isDigitCh).length then none
  else
    match s.dropWhile isDigitCh with
    | [] => none
    | c1 :: r2 =>
      if c1 ≠ '/' then none
      else if (r2.takeWhile isDigitCh).length = 0 ∨ 2 < (r2.takeWhile isDigitCh).length then none
      else
        match r2.dropWhile isDigitCh with
        | [] => none
        | c3 :: r4 =>
          if c3 ≠ '/' then none
          else if (r4.takeWhile isDigitCh).length = 4 ∧ r4.dropWhile isDigitCh = [] then
            some (s.takeWhile isDigitCh, r2.takeWhile isDigitCh, r4.takeWhile isDigitCh)
          else none

/-- `normalizeDateToYyyyMmDd` (the spec's `toIso`). -/
def normalizeDateToYyyyMmDd (value : Str) : Str :=
  if value = [] then value
  else
    let s := jsTrim value
    if isoTest s then s
    else
      match mdyMatch s with
      | some (m1, d1, yyyy) =>
        yyyy ++ '-' :: pad2 (digitsVal m1) ++ '-' :: pad2 (digitsVal d1)
      | none => s

/-- The fixed month-abbreviation table. -/
def months : List Str :=
  ["Jan".toList, "Feb".toList, "Mar".toList, "Apr".toList, "May".toList, "Jun".toList,
   "Jul".toList, "Aug".toList, "Sep".toList, "Oct".toList, "Nov".toList, "Dec".toList]

/-- `(o || d)` on a parsed number: NaN, `0` and `-0` are falsy. -/
def jsOrNum (o : Option Int) (d : Int) : Int :=
  match o with
  | none => d
  | some v => if v = 0 then d else v

/-- `months[i] || "Jan"`: out-of-range index gives `undefined`, hence "Jan". -/
def monthsGet (i : Int) : Str :=
  if 0 ≤ i ∧ i < 12 then months.getD i.toNat [] else "Jan".toList

/-- `toCruiseDateString` (the spec's `toDisplayDate`). -/
def toCruiseDateString (yyyyMmDd : Str) : Str :=
  if yyyyMmDd = [] then []
  else
    let parts := splitOn '-' yyyyMmDd
    if parts.length ≠ 3 then []
    else
      let y := parseIntJS (parts.getD 0 [])
      let m := parseIntJS (parts.getD 1 [])
      let d := parseIntJS (parts.getD 2 [])
      let mon := monthsGet (jsOrNum m 1 - 1)
      let dd := padStart2 (intToDec (jsOrNum d 1))
      numToStr y ++ ' ' :: mon ++ ' ' :: dd


/-! ### extractPortsFromStops -/

/-- Value lookup `String(obj[k] || "")`: absent or empty gives `""`. -/
def getVal (r : SailingRecord) (k : Str) : Str :=
  match r.find? (fun p => p.1 == k) with
  | some p => p.2
  | none => []

/-- Lookup `obj[k] || null` (used for `chosenMeta`). -/
def getValOpt (r : SailingRecord) (k : Str) : Option Str :=
  match r.find? (fun p => p.1 == k) with
  | some p => if p.2 = [] then none else some p.2
  | none => none

/-- `k.startsWith("stop_") && k.endsWith("_text")`. -/
def isStopKey (k : Str) : Bool :=
  ("stop_".toList).isPrefixOf k && ("_text".toList).isSuffixOf k

/-- `parseInt(k.split("_")[1], 10)`; `none` models NaN. -/
def stopOrd (k : Str) : Option Int :=
  parseIntJS ((splitOn '_' k).getD 1 [])

/-- `comparator(a, b) = na - nb ≤ 0`.  The ES spec coerces a NaN comparator
result to `+0`, so keys without a numeric ordinal compare "equal" to
everything, which makes the comparator inconsistent and the JS sort order
implementation-defined; the theorems about sortedness therefore assume all
selected keys have numeric ordinals. -/
def stopCmpLe (a b : Str) : Bool :=
  match stopOrd a, stopOrd b with
  | some x, some y => decide (x ≤ y)
  | _, _ => true

/-- `text.replace(/^Departing from\s+/i, "").trim()` for a (trimmed) `text`
that starts case-insensitively with `"departing from "`: the regex consumes
the 14 literal characters and the maximal following whitespace run. -/
def stripDeparting (text : Str) : Str :=
  jsTrim ((text.drop 14).dropWhile jsWhitespace)

/-- The loop body over a sorted key: trim, skip empty, strip the
"Departing from " prefix case-insensitively. -/
def portOfKey (obj : SailingRecord) (k : Str) : Option Str :=
  let text := jsTrim (getVal obj k)
  if text = [] then none
  else if ("departing from ".toList).isPrefixOf (toLowerStr text) then some (stripDeparting text)
  else some text

/-- `Object.keys(obj).filter(k => k.startsWith("stop_") && k.endsWith("_text"))`. -/
def stopKeysOf (obj : SailingRecord) : List Str :=
  (obj.map (fun p => p.1)).filter isStopKey

/-- `extractPortsFromStops`. -/
def extractPortsFromStops (obj : SailingRecord) : List Str :=
  let sorted := List.insertionSort (fun a b => stopCmpLe a b = true) (stopKeysOf obj)
  sorted.filterMap (portOfKey obj)

/-! ### runApifyTaskAndGetPorts (dataset part) -/

/-- The record filter: `ship_name` trimmed+lowercased equals the trimmed,
lowercased target ship, and `cruise_date` trimmed equals
`toCruiseDateString(sailDate)` exactly. -/
def sailingMatches (shipName sailDate : Option Str) (it : SailingRecord) : Bool :=
  (toLowerStr (jsTrim (getVal it ("ship_name".toList))) ==
     toLowerStr (jsTrim (shipName.getD []))) &&
  (jsTrim (getVal it ("cruise_date".toList)) == toCruiseDateString (sailDate.getD []))

/-- `const chosen = candidates[0] || items[0]` (records are objects, hence
truthy); `none` only when the dataset itself is empty. -/
def chosenOf (items : List SailingRecord) (shipName sailDate : Option Str) : Option SailingRecord :=
  match items with
  | [] => none
  | i0 :: rest => some (((i0 :: rest).filter (sailingMatches shipName sailDate)).headD i0)

/-- The message of the `NoPortsExtractedError` throw:
``Could not extract ports. Chosen keys: ${Object.keys(chosen).join(", ")}``. -/
def noPortsMsg (chosen : SailingRecord) : Str :=
  ("Could not extract ports. Chosen keys: ".toList) ++
    List.intercalate (", ".toList) (chosen.map (fun p => p.1))

/-- `{ id: chosen.id || null, cruise_date: ..., cruise_title: ... }`. -/
structure ChosenMeta where
  id : Option Str
  cruise_date : Option Str
  cruise_title : Option Str
deriving DecidableEq, Repr

def metaOf (chosen : SailingRecord) : ChosenMeta :=
  ⟨getValOpt chosen ("id".toList), getValOpt chosen ("cruise_date".toList),
   getValOpt chosen ("cruise_title".toList)⟩

/-- `{ ports, chosenMeta }`, the successful result of the scrape path. -/
structure ApifyPortsResult where
  ports : List Str
  chosenMeta : ChosenMeta
deriving DecidableEq, Repr

/-- The dataset-processing tail of `runApifyTaskAndGetPorts`, from the
fetched items array onward (the credential check and the two HTTP calls
are external I/O; their failures surface through the same `Except` channel
at the call site in `handleOrderPaid`).  `cruiseLine` is only forwarded to
the scrape task input and never used in matching. -/
def runApifyTaskAndGetPorts (items : List SailingRecord)
    (_cruiseLine shipName sailDate : Option Str) : Except Str ApifyPortsResult :=
  match chosenOf items shipName sailDate with
  | none => .error ("Apify returned no items.".toList)
  | some chosen =>
    if extractPortsFromStops chosen = [] then .error (noPortsMsg chosen)
    else .ok ⟨extractPortsFromStops chosen, metaOf chosen⟩

/-! ### The webhook handler -/

def emptyLineItem : LineItem := ⟨none, none⟩

/-- `const fields = extractLineItemProperties(lineItems[0] || {})`. -/
def fieldsOf (body : WebhookBody) : List LineItemProperty :=
  extractLineItemProperties (body.line_items.headD emptyLineItem)

/-- JS `a || b` on nullable strings: `null` and `""` are falsy. -/
def jsOrStr (a b : Option Str) : Option Str :=
  match a with
  | some v => if v = [] then b else some v
  | none => b

def cruiseLineOf (body : WebhookBody) : Option Str :=
  getField (fieldsOf body) ("cruise line".toList)

/-- `getField(fields, "ship") || getField(fields, "ships")`. -/
def shipNameOf (body : WebhookBody) : Option Str :=
  jsOrStr (getField (fieldsOf body) ("ship".toList)) (getField (fieldsOf body) ("ships".toList))

/-- `sailDate = normalizeDateToYyyyMmDd(getField(fields, "sail date"))`. -/
def sailDateOf (body : WebhookBody) : Option Str :=
  (getField (fieldsOf body) ("sail date".toList)).map normalizeDateToYyyyMmDd

/-- `!!x` for a nullable string: truthy iff present and non-empty. -/
def truthy (o : Option Str) : Bool :=
  match o with
  | some v => !v.isEmpty
  | none => false

def portsChangedOf (body : WebhookBody) : Bool :=
  truthy (getField (fieldsOf body) ("ports of call changed".toList)) ||
  truthy (getField (fieldsOf body) ("ports changed".toList)) ||
  truthy (getField (fieldsOf body) ("my ports of call changed".toList))

def overridePortsOf (body : WebhookBody) : List Str :=
  getActualPorts (fieldsOf body)

/-- The argument object of the `runApifyTaskAndGetPorts` call. -/
structure ScrapeInput where
  cruiseLine : Option Str
  shipName : Option Str
  sailDate : Option Str
deriving DecidableEq, Repr

def scrapeInputOf (body : WebhookBody) : ScrapeInput :=
  ⟨cruiseLineOf body, shipNameOf body, sailDateOf body⟩

/-- The `inputs` object recorded in both log-entry shapes. -/
structure ResolvedInputs where
  cruiseLine : Option Str
  shipName : Option Str
  sailDate : Option Str
  portsChanged : Bool
deriving DecidableEq, Repr

def inputsOf (body : WebhookBody) : ResolvedInputs :=
  ⟨cruiseLineOf body, shipNameOf body, sailDateOf body, portsChangedOf body⟩

/-- The entry unshifted onto `recentWebhookHits` (timestamp, topic, shop
and order identity copied from the request are omitted: no claim mentions
them). -/
inductive LogEntry where
  | success (inputs : ResolvedInputs) (fields : List LineItemProperty)
      (source : Str) (ports : List Str) (meta : Option ChosenMeta)
  | failure (errMsg : Str) (inputs : ResolvedInputs) (fields : List LineItemProperty)
deriving DecidableEq, Repr

structure HandlerOutcome where
  status : Nat
  respBody : Str
  entry : LogEntry
  scrapeCalled : Bool
deriving DecidableEq, Repr

/-- `app.post("/webhooks/order-paid")`: the decision between the customer
override and the scrape path, the try/catch, and the always-200 response.
The scrape call (network) is a parameter; `scrapeCalled` records whether
the branch invoking `runApifyTaskAndGetPorts` was taken. -/
def handleOrderPaid (body : WebhookBody)
    (scrape : ScrapeInput → Except Str ApifyPortsResult) : HandlerOutcome :=
  if portsChangedOf body = true ∧ 2 ≤ (overridePortsOf body).length then
    ⟨200, "OK".toList,
     .success (inputsOf body) (fieldsOf body) ("customer_override".toList)
       (overridePortsOf body) none, false⟩
  else
    match scrape (scrapeInputOf body) with
    | .ok r =>
      ⟨200, "OK".toList,
       .success (inputsOf body) (fieldsOf body) ("apify_scrape".toList)
         r.ports (some r.chosenMeta), true⟩
    | .error e => ⟨200, "OK".toList, .failure e (inputsOf body) (fieldsOf body), true⟩



/-! ### Spec-side definitions

These follow the words of the specification (not the code) and are only
used to compare the code against the spec'd behavior. -/

/-- Modelled from the spec: "keys matching `stop_<n>_text` where `<n>` is a
numeric ordinal", i.e. the pattern `^stop_\d+_text$`. -/
def isSpecStopKey (k : Str) : Bool :=
  ("stop_".toList).isPrefixOf k &&
  !((k.drop 5).takeWhile isDigitCh).isEmpty &&
  ((k.drop 5).dropWhile isDigitCh == "_text".toList)

/-- The numeric ordinal `<n>` of a spec-shaped stop key. -/
def specOrdOf (k : Str) : Nat := digitsVal ((k.drop 5).takeWhile isDigitCh)

def specStopKeys (obj : SailingRecord) : List Str :=
  (obj.map (fun p => p.1)).filter isSpecStopKey

def specSortedKeys (obj : SailingRecord) : List Str :=
  List.insertionSort (fun a b => specOrdOf a ≤ specOrdOf b) (specStopKeys obj)

/-- Modelled from the spec: select exactly the `stop_<n>_text` keys with a
numeric ordinal, sort ascending by that ordinal, then trim / skip empty /
strip the "Departing from " prefix as the code's loop does. -/
def specExtractPorts (obj : SailingRecord) : List Str :=
  (specSortedKeys obj).filterMap (portOfKey obj)

/-- `getActualPorts`' intermediate entries, instrumented with the source
field name (used only to state claims about which kind of entry ends up
where; `getActualPortsN_spec` ties it to `getActualPorts`). -/
structure PortEntryN where
  name : Str
  n : Nat
  value : Str
deriving DecidableEq, Repr

def keptEntriesN (fields : List LineItemProperty) : List PortEntryN :=
  ((fields.filter actualPortPred).map
    (fun f => PortEntryN.mk f.name (ordOfName f.name) (jsTrim f.value))).filter
    (fun e => decide (0 < e.value.length))

def sortedEntriesN (fields : List LineItemProperty) : List PortEntryN :=
  List.insertionSort (fun a b : PortEntryN => a.n ≤ b.n) (keptEntriesN fields)

/-- The contested clause of C5, as stated: entries whose field name has no
digits (ordinal 9999) sort last — once a no-digit entry appears, every
later entry is also a no-digit entry. -/
def claimC5NoDigitLast : Prop :=
  ∀ fields : List LineItemProperty,
    List.Pairwise (fun a b : PortEntryN =>
      firstDigitRun a.name = none → firstDigitRun b.name = none)
      (sortedEntriesN fields)

/-! ### Concrete inputs for witnesses and counterexamples -/

/-- A raw `{name, value}` property entry. -/
def mkProp (n v : String) : RawEntry := ⟨some n.toList, none, some v.toList⟩

def cexRecordC2 : SailingRecord := [("stop_x_text".toList, "Atlantis".toList)]

def witRecordC2 : SailingRecord :=
  [("stop_1_text".toList, "Departing from Miami".toList),
   ("stop_2_text".toList, "Cozumel".toList),
   ("stop_3_text".toList, [])]

def cexFieldsC5 : List LineItemProperty :=
  [⟨"Actual Port".toList, "Y".toList⟩, ⟨"Actual Port 10000".toList, "X".toList⟩]

def witFieldsC5 : List LineItemProperty :=
  [⟨"Actual Port 2".toList, "Cozumel".toList⟩, ⟨"Actual Port 1".toList, "Miami".toList⟩]

def witBodyC1 : WebhookBody :=
  ⟨[⟨some [mkProp "Ports of Call Changed" "Yes",
           mkProp "Actual Port 1" "Miami",
           mkProp "Actual Port 2" "Cozumel"], none⟩]⟩

def witBodyC9 : WebhookBody := ⟨[]⟩

def witBodyC10 : WebhookBody :=
  ⟨[⟨some [mkProp "My Ports of Call Changed?" "No"], none⟩]⟩

/-- A scrape stub that always fails (used only to instantiate theorems). -/
def scrFail : ScrapeInput → Except Str ApifyPortsResult :=
  fun _ => .error ("Apify returned no items.".toList)

def witLineItemC7 : LineItem :=
  ⟨some [mkProp "Port" "Miami"], some [⟨none, some "Ship".toList, some "Wonder".toList⟩]⟩

def recNoMatchC3 : SailingRecord :=
  [("ship_name".toList, "Other Ship".toList), ("cruise_date".toList, "2025 Dec 06".toList)]

def recMatchC3 : SailingRecord :=
  [("ship_name".toList, "Wonder of the Seas".toList),
   ("cruise_date".toList, "2025 Dec 06".toList),
   ("stop_1_text".toList, "Miami".toList)]

def witItemsC3 : List SailingRecord := [recNoMatchC3, recMatchC3]

def witRecordC8 : SailingRecord := [("ship_name".toList, "X".toList)]

/-! ### Spec-side definitions for C6 -/

/-- Modelled from the claim's "valid MM/DD/YYYY input": the trimmed string
matches `M/D/YYYY`, with month 1-12, day 1-31 and a year whose decimal
rendering keeps 4 digits (no leading zero). -/
def validMdy (s : Str) : Bool :=
  match mdyMatch (jsTrim s) with
  | some (m, d, y) =>
    decide (1 ≤ digitsVal m) && decide (digitsVal m ≤ 12) &&
    decide (1 ≤ digitsVal d) && decide (digitsVal d ≤ 31) &&
    decide (y.headD '0' ≠ '0')
  | none => false

/-- Modelled from the claim's "valid YYYY-MM-DD input". -/
def validIso (s : Str) : Bool :=
  isoTest (jsTrim s) &&
  decide ((jsTrim s).headD '0' ≠ '0') &&
  decide (1 ≤ 10 * dv ((jsTrim s).getD 5 '0') + dv ((jsTrim s).getD 6 '0')) &&
  decide (10 * dv ((jsTrim s).getD 5 '0') + dv ((jsTrim s).getD 6 '0') ≤ 12) &&
  decide (1 ≤ 10 * dv ((jsTrim s).getD 8 '0') + dv ((jsTrim s).getD 9 '0')) &&
  decide (10 * dv ((jsTrim s).getD 8 '0') + dv ((jsTrim s).getD 9 '0') ≤ 31)

def validDateInput (s : Str) : Bool := validMdy s || validIso s

/-- The shape "YYYY Mon DD": four digits, a space, an entry of the fixed
month table, a space, two digits. -/
def isDisplayDate (s : Str) : Bool :=
  decide ((s.takeWhile isDigitCh).length = 4) &&
  (match s.drop 4 with
   | c :: r2 =>
     decide (c = ' ') && decide (r2.take 3 ∈ months) &&
     (match r2.drop 3 with
      | [c2, d1, d2] => decide (c2 = ' ') && isDigitCh d1 && isDigitCh d2
      | _ => false)
   | [] => false)

/-! ### General list lemmas -/

theorem foldl_push_eq {α β : Type} (f : α → Option β) :
    ∀ (l : List α) (init : List β),
      l.foldl (fun acc p => acc ++ (f p).toList) init = init ++ l.filterMap f
  | [], init => by simp
  | a :: t, init => by
    simp only [List.foldl_cons, List.filterMap_cons]
    rw [foldl_push_eq f t (init ++ (f a).toList)]
    cases f a <;> simp

theorem dropWhile_eq_self_of {α : Type} (p : α → Bool) :
    ∀ l : List α, (∀ c ∈ l, p c = false) → List.dropWhile p l = l
  | [], _ => rfl
  | a :: t, h => by simp [List.dropWhile_cons, h a (by simp)]

theorem dropWhile_idem {α : Type} (p : α → Bool) (l : List α) :
    List.dropWhile p (List.dropWhile p l) = List.dropWhile p l := by
  induction l with
  | nil => rfl
  | cons a t ih =>
    by_cases h : p a
    · simp [List.dropWhile_cons, h, ih]
    · simp [List.dropWhile_cons, h]

theorem dropWhile_reverse_trimmed {α : Type} (p : α → Bool) (A : List α)
    (h : List.dropWhile p A = A) :
    List.dropWhile p ((List.dropWhile p A.reverse).reverse)
      = (List.dropWhile p A.reverse).reverse := by
  cases A with
  | nil => simp
  | cons a t =>
    have ha : p a = false := by
      by_cases hpa : p a
      · exfalso
        rw [List.dropWhile_cons, if_pos hpa] at h
        have hlen := (@List.dropWhile_sublist _ t p).length_le
        have := congrArg List.length h
        simp at this
        omega
      · simpa using hpa
    rw [List.reverse_cons, List.dropWhile_append]
    by_cases he : (List.dropWhile p t.reverse).isEmpty
    · rw [if_pos he]
      simp [List.dropWhile_cons, ha]
    · rw [if_neg he]
      rw [List.reverse_append]
      simp [List.dropWhile_cons, ha]

theorem jsTrim_idem (s : Str) : jsTrim (jsTrim s) = jsTrim s := by
  unfold jsTrim
  rw [dropWhile_reverse_trimmed jsWhitespace (s.dropWhile jsWhitespace)
    (dropWhile_idem jsWhitespace s)]
  rw [List.reverse_reverse, dropWhile_idem]

theorem jsTrim_eq_self {l : Str} (h : ∀ c ∈ l, jsWhitespace c = false) : jsTrim l = l := by
  unfold jsTrim
  rw [dropWhile_eq_self_of jsWhitespace l h,
    dropWhile_eq_self_of jsWhitespace l.reverse (fun c hc => h c (List.mem_reverse.mp hc)),
    List.reverse_reverse]

theorem filter_orderedInsert_neg {α : Type} (r : α → α → Prop) [DecidableRel r]
    (p : α → Bool) (x : α) (hx : p x = false) :
    ∀ l : List α, (List.orderedInsert r x l).filter p = l.filter p
  | [] => by simp [List.orderedInsert, hx]
  | y :: ys => by
    by_cases h : r x y
    · simp [List.orderedInsert, h, List.filter_cons, hx]
    · simp only [List.orderedInsert, if_neg h, List.filter_cons]
      rw [filter_orderedInsert_neg r p x hx ys]

theorem filter_orderedInsert_key {α : Type} (key : α → Nat) (k : Nat) (x : α)
    (hx : key x = k) :
    ∀ l : List α,
      (List.orderedInsert (fun a b => key a ≤ key b) x l).filter
          (fun a => decide (key a = k))
        = x :: l.filter (fun a => decide (key a = k))
  | [] => by subst hx; simp [List.orderedInsert]
  | y :: ys => by
    subst hx
    by_cases h : key x ≤ key y
    · simp [List.orderedInsert, h, List.filter_cons]
    · have hy : ¬ (key y = key x) := by omega
      simp only [List.orderedInsert, if_neg h, List.filter_cons, decide_eq_true_eq,
        if_neg hy]
      rw [filter_orderedInsert_key key (key x) x rfl ys]

theorem filter_insertionSort_key {α : Type} (key : α → Nat) (k : Nat) :
    ∀ l : List α,
      (List.insertionSort (fun a b => key a ≤ key b) l).filter
          (fun a => decide (key a = k))
        = l.filter (fun a => decide (key a = k))
  | [] => rfl
  | x :: t => by
    by_cases hx : key x = k
    · rw [List.insertionSort, filter_orderedInsert_key key k x hx,
        filter_insertionSort_key key k t, List.filter_cons]
      simp [hx]
    · rw [List.insertionSort, filter_orderedInsert_neg _ _ x (by simp [hx]),
        filter_insertionSort_key key k t, List.filter_cons]
      simp [hx]

theorem orderedInsert_map {α β : Type} (g : α → β) (r : β → β → Prop) [DecidableRel r]
    (x : α) :
    ∀ l : List α,
      List.orderedInsert r (g x) (l.map g)
        = (List.orderedInsert (fun a b => r (g a) (g b)) x l).map g
  | [] => rfl
  | y :: ys => by
    by_cases h : r (g x) (g y)
    · simp [List.orderedInsert, h]
    · simp [List.orderedInsert, h, orderedInsert_map g r x ys]

theorem insertionSort_map {α β : Type} (g : α → β) (r : β → β → Prop) [DecidableRel r] :
    ∀ l : List α,
      List.insertionSort r (l.map g)
        = (List.insertionSort (fun a b => r (g a) (g b)) l).map g
  | [] => rfl
  | x :: t => by
    rw [List.map_cons, List.insertionSort, insertionSort_map g r t,
      orderedInsert_map g r x, List.insertionSort]

theorem orderedInsert_congr {α : Type} (r s : α → α → Prop) [DecidableRel r]
    [DecidableRel s] (x : α) :
    ∀ l : List α, (∀ b ∈ l, (r x b ↔ s x b)) →
      List.orderedInsert r x l = List.orderedInsert s x l
  | [], _ => rfl
  | y :: ys, h => by
    by_cases hr : r x y
    · rw [List.orderedInsert, List.orderedInsert, if_pos hr,
        if_pos ((h y (by simp)).mp hr)]
    · rw [List.orderedInsert, List.orderedInsert, if_neg hr,
        if_neg (fun hs => hr ((h y (by simp)).mpr hs)),
        orderedInsert_congr r s x ys (fun b hb => h b (by simp [hb]))]

theorem insertionSort_congr {α : Type} (r s : α → α → Prop) [DecidableRel r]
    [DecidableRel s] :
    ∀ l : List α, (∀ a ∈ l, ∀ b ∈ l, (r a b ↔ s a b)) →
      List.insertionSort r l = List.insertionSort s l
  | [], _ => rfl
  | x :: t, h => by
    rw [List.insertionSort, List.insertionSort,
      insertionSort_congr r s t (fun a ha b hb => h a (by simp [ha]) b (by simp [hb]))]
    exact orderedInsert_congr r s x _ (fun b hb => by
      have hbt : b ∈ t := (List.perm_insertionSort s t).subset hb
      exact h x (by simp) b (by simp [hbt]))

/-! ### Digit and decimal-rendering lemmas -/

theorem not_ws_of_digit {c : Char} (h : isDigitCh c = true) : jsWhitespace c = false := by
  simp only [isDigitCh, Bool.and_eq_true, decide_eq_true_eq] at h
  simp only [jsWhitespace, Bool.or_eq_false_iff, Bool.and_eq_false_iff,
    decide_eq_false_iff_not]
  omega

theorem digit_ne_dash {c : Char} (h : isDigitCh c = true) : c ≠ '-' :=
  fun hc => absurd (hc ▸ h) (by decide)

theorem digit_ne_plus {c : Char} (h : isDigitCh c = true) : c ≠ '+' :=
  fun hc => absurd (hc ▸ h) (by decide)

theorem digit_ne_slash {c : Char} (h : isDigitCh c = true) : c ≠ '/' :=
  fun hc => absurd (hc ▸ h) (by decide)

theorem digitChar_isDigit {n : Nat} (h : n < 10) : isDigitCh (Nat.digitChar n) = true := by
  interval_cases n <;> decide

theorem dv_digitChar {n : Nat} (h : n < 10) : dv (Nat.digitChar n) = n := by
  interval_cases n <;> decide

theorem natToDecAux_eq : ∀ (f1 f2 n : Nat), n < f1 → n < f2 →
    natToDecAux f1 n = natToDecAux f2 n := by
  intro f1
  induction f1 with
  | zero => intro f2 n h1 _; exact absurd h1 (Nat.not_lt_zero n)
  | succ f ih =>
    intro f2 n h1 h2
    cases f2 with
    | zero => exact absurd h2 (Nat.not_lt_zero n)
    | succ f2 =>
      by_cases h : n < 10
      · simp [natToDecAux, h]
      · have hd : n / 10 < n := Nat.div_lt_self (by omega) (by omega)
        simp only [natToDecAux, if_neg h]
        rw [ih f2 (n / 10) (by omega) (by omega)]

theorem natToDec_eq (n : Nat) :
    natToDec n = if n < 10 then [Nat.digitChar n]
      else natToDec (n / 10) ++ [Nat.digitChar (n % 10)] := by
  by_cases h : n < 10
  · simp [natToDec, natToDecAux, h]
  · have hd : n / 10 < n := Nat.div_lt_self (by omega) (by omega)
    rw [if_neg h]
    have e1 : natToDecAux (n + 1) n = natToDecAux n (n / 10) ++ [Nat.digitChar (n % 10)] := by
      simp [natToDecAux, h]
    show natToDecAux (n + 1) n = natToDec (n / 10) ++ [Nat.digitChar (n % 10)]
    rw [e1]
    unfold natToDec
    rw [natToDecAux_eq n (n / 10 + 1) (n / 10) (by omega) (by omega)]

theorem natToDec_digits (n : Nat) : ∀ c ∈ natToDec n, isDigitCh c = true := by
  induction n using Nat.strong_induction_on with
  | _ n ih =>
    intro c hc
    rw [natToDec_eq] at hc
    by_cases h : n < 10
    · rw [if_pos h] at hc
      simp at hc
      exact hc ▸ digitChar_isDigit h
    · rw [if_neg h, List.mem_append] at hc
      rcases hc with hc | hc
      · exact ih (n / 10) (Nat.div_lt_self (by omega) (by omega)) c hc
      · simp at hc
        exact hc ▸ digitChar_isDigit (Nat.mod_lt n (by omega))

theorem digitsVal_append (l : Str) (c : Char) :
    digitsVal (l ++ [c]) = 10 * digitsVal l + dv c := by
  unfold digitsVal
  rw [List.foldl_append]
  rfl

theorem digitsVal_natToDec (n : Nat) : digitsVal (natToDec n) = n := by
  induction n using Nat.strong_induction_on with
  | _ n ih =>
    rw [natToDec_eq]
    by_cases h : n < 10
    · rw [if_pos h]
      simp [digitsVal, dv_digitChar h]
    · rw [if_neg h, digitsVal_append,
        ih (n / 10) (Nat.div_lt_self (by omega) (by omega)),
        dv_digitChar (Nat.mod_lt n (by omega))]
      omega

theorem natToDec_length : ∀ (k n : Nat), 10 ^ k ≤ n → n < 10 ^ (k + 1) →
    (natToDec n).length = k + 1
  | 0, n, _, h2 => by
    rw [natToDec_eq, if_pos (by simpa using h2)]
    rfl
  | k + 1, n, h1, h2 => by
    have hp : 1 ≤ 10 ^ k := Nat.one_le_pow _ _ (by omega)
    have h10 : ¬ n < 10 := by
      have : 10 ≤ 10 ^ (k + 1) := by
        rw [pow_succ]
        calc (10:Nat) = 1 * 10 := by omega
          _ ≤ 10 ^ k * 10 := Nat.mul_le_mul_right 10 hp
      omega
    rw [natToDec_eq, if_neg h10, List.length_append]
    have e1 : 10 ^ k ≤ n / 10 := by
      rw [Nat.le_div_iff_mul_le (by omega : 0 < 10)]
      calc 10 ^ k * 10 = 10 ^ (k + 1) := (pow_succ 10 k).symm
        _ ≤ n := h1
    have e2 : n / 10 < 10 ^ (k + 1) := by
      rw [Nat.div_lt_iff_lt_mul (by omega : 0 < 10)]
      calc n < 10 ^ (k + 2) := h2
        _ = 10 ^ (k + 1) * 10 := pow_succ 10 (k + 1)
    rw [natToDec_length k (n / 10) e1 e2]
    rfl

theorem pad2_two_digits {n : Nat} (h : n < 100) :
    (pad2 n).length = 2 ∧ ∀ c ∈ pad2 n, isDigitCh c = true := by
  unfold pad2 padStart2
  by_cases h10 : n < 10
  · have e : natToDec n = [Nat.digitChar n] := by rw [natToDec_eq, if_pos h10]
    rw [e]
    rw [if_neg (by simp)]
    refine ⟨by simp, ?_⟩
    intro c hc
    simp [List.replicate] at hc
    rcases hc with hc | hc
    · exact hc ▸ (by decide)
    · exact hc ▸ digitChar_isDigit h10
  · have hlen : (natToDec n).length = 2 := by
      refine natToDec_length 1 n ?_ ?_
      · norm_num
        omega
      · norm_num
        omega
    rw [if_pos (by omega)]
    exact ⟨hlen, natToDec_digits n⟩

theorem digitsVal_pad2 {n : Nat} (h : n < 100) : digitsVal (pad2 n) = n := by
  unfold pad2 padStart2
  by_cases h10 : n < 10
  · have e : natToDec n = [Nat.digitChar n] := by rw [natToDec_eq, if_pos h10]
    rw [e, if_neg (by simp)]
    show digitsVal ('0' :: [Nat.digitChar n]) = n
    simp [digitsVal, dv_digitChar h10]
    decide
  · have hlen : (natToDec n).length = 2 := by
      refine natToDec_length 1 n ?_ ?_
      · norm_num
        omega
      · norm_num
        omega
    rw [if_pos (by omega)]
    exact digitsVal_natToDec n

theorem parseIntJS_eq_of_dropWhile {s : Str} {c : Char} {rest : Str}
    (h : s.dropWhile jsWhitespace = c :: rest) :
    parseIntJS s = if c = '-' then (leadingDigits rest).map (fun n => -(n : Int))
      else if c = '+' then (leadingDigits rest).map (fun n => (n : Int))
      else (leadingDigits (c :: rest)).map (fun n => (n : Int)) := by
  unfold parseIntJS
  rw [h]

theorem parseIntJS_all_digits {l : Str} (hne : l ≠ []) (h : ∀ c ∈ l, isDigitCh c = true) :
    parseIntJS l = some ((digitsVal l : Nat) : Int) := by
  cases l with
  | nil => exact absurd rfl hne
  | cons c rest =>
    have hc : isDigitCh c = true := h c (by simp)
    rw [parseIntJS_eq_of_dropWhile
      (dropWhile_eq_self_of jsWhitespace (c :: rest) (fun d hd => not_ws_of_digit (h d hd)))]
    rw [if_neg (digit_ne_dash hc), if_neg (digit_ne_plus hc)]
    unfold leadingDigits
    rw [List.takeWhile_eq_self_iff.mpr h]
    simp

/-! ### C7: extractLineItemProperties -/

theorem normEntry_sound {b : Bool} {e : RawEntry} {p : LineItemProperty}
    (h : normEntry b e = some p) : p.name ≠ [] ∧ jsTrim p.value ≠ [] := by
  cases hn : resolveName b e with
  | none => simp [normEntry, hn] at h
  | some nm =>
    cases hv : e.value with
    | none => simp [normEntry, hn, hv] at h
    | some v =>
      simp only [normEntry, hn, hv] at h
      by_cases hcond : nm ≠ [] ∧ jsTrim v ≠ []
      · rw [if_pos hcond] at h
        cases h
        exact hcond
      · rw [if_neg hcond] at h
        exact absurd h (by simp)

theorem extractLineItemProperties_eq (li : LineItem) :
    extractLineItemProperties li
      = (li.properties.getD []).filterMap (normEntry true) ++
        (li.customAttributes.getD []).filterMap (normEntry false) := by
  unfold extractLineItemProperties
  cases hp : li.properties with
  | none =>
    cases hc : li.customAttributes with
    | none => simp
    | some l2 => simp [foldl_push_eq]
  | some l1 =>
    cases hc : li.customAttributes with
    | none => simp [foldl_push_eq]
    | some l2 => simp [foldl_push_eq]

theorem extract_values_ok (li : LineItem) :
    ∀ p ∈ extractLineItemProperties li, p.name ≠ [] ∧ jsTrim p.value ≠ [] := by
  intro p hp
  rw [extractLineItemProperties_eq, List.mem_append] at hp
  rcases hp with hp | hp
  · obtain ⟨e, _, he⟩ := List.mem_filterMap.mp hp
    exact normEntry_sound he
  · obtain ⟨e, _, he⟩ := List.mem_filterMap.mp hp
    exact normEntry_sound he

/-- C7: for every line item, the extractor's output is the normalized
entries of the primary `properties` list, in original order, followed by
the normalized entries of the `customAttributes` list, in original order
(`normEntry` skips entries with no resolvable truthy name or a
trim-empty value), and every output entry's value is non-empty after
trimming. -/
theorem claim_C7 (li : LineItem) :
    (extractLineItemProperties li
        = (li.properties.getD []).filterMap (normEntry true) ++
          (li.customAttributes.getD []).filterMap (normEntry false))
    ∧ (∀ p ∈ extractLineItemProperties li, jsTrim p.value ≠ []) :=
  ⟨extractLineItemProperties_eq li, fun p hp => (extract_values_ok li p hp).2⟩

/-- C7 witness: on a line item carrying one entry in each shape, the
extractor keeps both and the invariant holds at the first one. -/
theorem claim_C7_witness :
    (⟨"Port".toList, "Miami".toList⟩ : LineItemProperty) ∈ extractLineItemProperties witLineItemC7
    ∧ jsTrim ("Miami".toList) ≠ [] :=
  ⟨by decide, (claim_C7 witLineItemC7).2 ⟨"Port".toList, "Miami".toList⟩ (by decide)⟩

/-! ### C4: idempotence of normalizeDateToYyyyMmDd -/

theorem dv_lt_ten {c : Char} (h : isDigitCh c = true) : dv c < 10 := by
  simp only [isDigitCh, Bool.and_eq_true, decide_eq_true_eq] at h
  unfold dv
  omega

theorem length_eq_four {l : Str} (h : l.length = 4) : ∃ a b c d, l = [a, b, c, d] := by
  obtain ⟨a, l1, rfl⟩ := List.exists_of_length_succ l h
  have h1 : l1.length = 3 := by simp only [List.length_cons] at h; omega
  obtain ⟨b, l2, rfl⟩ := List.exists_of_length_succ l1 h1
  have h2 : l2.length = 2 := by simp only [List.length_cons] at h1; omega
  obtain ⟨c, l3, rfl⟩ := List.exists_of_length_succ l2 h2
  have h3 : l3.length = 1 := by simp only [List.length_cons] at h2; omega
  obtain ⟨d, l4, rfl⟩ := List.exists_of_length_succ l3 h3
  have h4 : l4.length = 0 := by simp only [List.length_cons] at h3; omega
  exact ⟨a, b, c, d, by rw [List.length_eq_zero.mp h4]⟩

theorem length_eq_two {l : Str} (h : l.length = 2) : ∃ a b, l = [a, b] := by
  obtain ⟨a, l1, rfl⟩ := List.exists_of_length_succ l h
  have h1 : l1.length = 1 := by simp only [List.length_cons] at h; omega
  obtain ⟨b, l2, rfl⟩ := List.exists_of_length_succ l1 h1
  have h2 : l2.length = 0 := by simp only [List.length_cons] at h1; omega
  exact ⟨a, b, by rw [List.length_eq_zero.mp h2]⟩

theorem digitsVal_lt_100 {l : Str} (h : ∀ c ∈ l, isDigitCh c = true) (hl : l.length ≤ 2) :
    digitsVal l < 100 := by
  cases l with
  | nil => simp [digitsVal]
  | cons c1 t =>
    cases t with
    | nil =>
      have h1 := dv_lt_ten (h c1 (by simp))
      simp only [digitsVal, List.foldl_cons, List.foldl_nil]
      omega
    | cons c2 t2 =>
      cases t2 with
      | nil =>
        have h1 := dv_lt_ten (h c1 (by simp))
        have h2 := dv_lt_ten (h c2 (by simp))
        simp only [digitsVal, List.foldl_cons, List.foldl_nil]
        omega
      | cons c3 t3 => simp at hl

theorem isoTest_elim {s : Str} (h : isoTest s = true) :
    ∃ y1 y2 y3 y4 m1 m2 d1 d2,
      s = [y1, y2, y3, y4, '-', m1, m2, '-', d1, d2] ∧
      isDigitCh y1 = true ∧ isDigitCh y2 = true ∧ isDigitCh y3 = true ∧
      isDigitCh y4 = true ∧ isDigitCh m1 = true ∧ isDigitCh m2 = true ∧
      isDigitCh d1 = true ∧ isDigitCh d2 = true := by
  unfold isoTest at h
  split at h
  · next y1 y2 y3 y4 e m1 m2 h8 d1 d2 =>
    simp only [Bool.and_eq_true, decide_eq_true_eq] at h
    obtain ⟨⟨⟨⟨⟨⟨⟨⟨⟨h1, h2⟩, h3⟩, h4⟩, h5⟩, h6⟩, h7⟩, h8e⟩, h9⟩, h10⟩ := h
    subst h5
    subst h8e
    exact ⟨y1, y2, y3, y4, m1, m2, d1, d2, rfl, h1, h2, h3, h4, h6, h7, h9, h10⟩
  · exact absurd h (by simp)

theorem isoTest_of_parts {y : Str} {mv dn : Nat}
    (hy : y.length = 4) (hyd : ∀ c ∈ y, isDigitCh c = true)
    (hm : mv < 100) (hd : dn < 100) :
    isoTest (y ++ '-' :: pad2 mv ++ '-' :: pad2 dn) = true := by
  obtain ⟨a, b, c, d, rfl⟩ := length_eq_four hy
  obtain ⟨hm2, hmd⟩ := pad2_two_digits hm
  obtain ⟨m1, m2, hmeq⟩ := length_eq_two hm2
  obtain ⟨hd2, hdd⟩ := pad2_two_digits hd
  obtain ⟨d1, d2, hdeq⟩ := length_eq_two hd2
  rw [hmeq] at hmd
  rw [hdeq] at hdd
  rw [hmeq, hdeq]
  show isoTest [a, b, c, d, '-', m1, m2, '-', d1, d2] = true
  simp [isoTest, hyd a (by simp), hyd b (by simp), hyd c (by simp), hyd d (by simp),
    hmd m1 (by simp), hmd m2 (by simp), hdd d1 (by simp), hdd d2 (by simp)]

theorem normalize_of_isoTest {t : Str} (h : isoTest t = true) :
    normalizeDateToYyyyMmDd t = t := by
  have hchars : ∀ c ∈ t, jsWhitespace c = false := by
    obtain ⟨y1, y2, y3, y4, m1, m2, d1, d2, rfl, h1, h2, h3, h4, h5, h6, h7, h8⟩ :=
      isoTest_elim h
    intro c hc
    simp at hc
    rcases hc with rfl | rfl | rfl | rfl | rfl | rfl | rfl | rfl | rfl | rfl
    · exact not_ws_of_digit h1
    · exact not_ws_of_digit h2
    · exact not_ws_of_digit h3
    · exact not_ws_of_digit h4
    · decide
    · exact not_ws_of_digit h5
    · exact not_ws_of_digit h6
    · decide
    · exact not_ws_of_digit h7
    · exact not_ws_of_digit h8
  have hne : t ≠ [] := by
    intro heq
    rw [heq] at h
    exact absurd h (by decide)
  simp only [normalizeDateToYyyyMmDd, if_neg hne, jsTrim_eq_self hchars, if_pos h]

theorem mdyMatch_elim {s m d y : Str} (h : mdyMatch s = some (m, d, y)) :
    s = m ++ '/' :: d ++ '/' :: y ∧
      (∀ c ∈ m, isDigitCh c = true) ∧ (∀ c ∈ d, isDigitCh c = true) ∧
      (∀ c ∈ y, isDigitCh c = true) ∧
      1 ≤ m.length ∧ m.length ≤ 2 ∧ 1 ≤ d.length ∧ d.length ≤ 2 ∧ y.length = 4 := by
  unfold mdyMatch at h
  by_cases h1 : (s.takeWhile isDigitCh).length = 0 ∨ 2 < (s.takeWhile isDigitCh).length
  · rw [if_pos h1] at h
    exact absurd h (by simp)
  · rw [if_neg h1] at h
    push_neg at h1
    obtain ⟨h1a, h1b⟩ := h1
    cases hr1 : s.dropWhile isDigitCh with
    | nil => rw [hr1] at h; simp at h
    | cons c1 r2 =>
      rw [hr1] at h
      simp only [] at h
      by_cases hc1 : c1 = '/'
      · subst hc1
        rw [if_neg (by simp)] at h
        by_cases h2 : (r2.takeWhile isDigitCh).length = 0 ∨ 2 < (r2.takeWhile isDigitCh).length
        · rw [if_pos h2] at h
          exact absurd h (by simp)
        · rw [if_neg h2] at h
          push_neg at h2
          obtain ⟨h2a, h2b⟩ := h2
          cases hr3 : r2.dropWhile isDigitCh with
          | nil => rw [hr3] at h; simp at h
          | cons c3 r4 =>
            rw [hr3] at h
            simp only [] at h
            by_cases hc3 : c3 = '/'
            · subst hc3
              rw [if_neg (by simp)] at h
              by_cases h3 : (r4.takeWhile isDigitCh).length = 4 ∧ r4.dropWhile isDigitCh = []
              · rw [if_pos h3] at h
                obtain ⟨h3a, h3b⟩ := h3
                simp only [Option.some.injEq, Prod.mk.injEq] at h
                obtain ⟨hm', hd', hy'⟩ := h
                subst hm'
                subst hd'
                subst hy'
                refine ⟨?_, ?_, ?_, ?_, by omega, h1b, by omega, h2b, h3a⟩
                · have e1 : s.takeWhile isDigitCh ++ s.dropWhile isDigitCh = s :=
                    List.takeWhile_append_dropWhile isDigitCh s
                  have e2 : r2.takeWhile isDigitCh ++ r2.dropWhile isDigitCh = r2 :=
                    List.takeWhile_append_dropWhile isDigitCh r2
                  have e3 : r4.takeWhile isDigitCh ++ r4.dropWhile isDigitCh = r4 :=
                    List.takeWhile_append_dropWhile isDigitCh r4
                  rw [h3b, List.append_nil] at e3
                  rw [hr3] at e2
                  rw [e3, List.append_assoc, List.cons_append, e2, ← hr1]
                  exact e1.symm
                · exact fun c hc => List.mem_takeWhile_imp hc
                · exact fun c hc => List.mem_takeWhile_imp hc
                · exact fun c hc => List.mem_takeWhile_imp hc
              · rw [if_neg h3] at h
                exact absurd h (by simp)
            · rw [if_pos hc3] at h
              exact absurd h (by simp)
      · rw [if_pos hc1] at h
        exact absurd h (by simp)

/-- C4: `normalizeDateToYyyyMmDd` (the spec's `toIso`) is idempotent on
every string input. -/
theorem claim_C4 (x : Str) :
    normalizeDateToYyyyMmDd (normalizeDateToYyyyMmDd x) = normalizeDateToYyyyMmDd x := by
  by_cases hx : x = []
  · subst hx
    rfl
  · by_cases hiso : isoTest (jsTrim x) = true
    · have e : normalizeDateToYyyyMmDd x = jsTrim x := by
        simp only [normalizeDateToYyyyMmDd, if_neg hx, if_pos hiso]
      rw [e]
      exact normalize_of_isoTest hiso
    · cases hm : mdyMatch (jsTrim x) with
      | none =>
        have e : normalizeDateToYyyyMmDd x = jsTrim x := by
          simp only [normalizeDateToYyyyMmDd, if_neg hx, hiso, hm]
          simp
        rw [e]
        by_cases ht : jsTrim x = []
        · rw [ht]
          rfl
        · simp only [normalizeDateToYyyyMmDd, if_neg ht, jsTrim_idem, hiso, hm]
          simp
      | some triple =>
        obtain ⟨m, rest⟩ := triple
        obtain ⟨d, y⟩ := rest
        obtain ⟨_, hmd, hdd, hyd, _, hm2, _, hd2, hy4⟩ := mdyMatch_elim hm
        have hout : isoTest (y ++ '-' :: pad2 (digitsVal m) ++ '-' :: pad2 (digitsVal d))
            = true :=
          isoTest_of_parts hy4 hyd (digitsVal_lt_100 hmd hm2) (digitsVal_lt_100 hdd hd2)
        have e : normalizeDateToYyyyMmDd x
            = y ++ '-' :: pad2 (digitsVal m) ++ '-' :: pad2 (digitsVal d) := by
          simp only [normalizeDateToYyyyMmDd, if_neg hx, hiso, hm]
          simp
        rw [e]
        exact normalize_of_isoTest hout

/-! ### C1, C9, C10: the webhook handler -/

/-- C1: if the resolved `portsChanged` flag is true and the collected
override ports number at least 2, the handler records source
`customer_override` with exactly the override ports, does not take the
scrape branch, and its outcome does not depend on the scrape function at
all (`runApifyTaskAndGetPorts` is never invoked). -/
theorem claim_C1 (body : WebhookBody) (scrape : ScrapeInput → Except Str ApifyPortsResult)
    (h1 : portsChangedOf body = true) (h2 : 2 ≤ (overridePortsOf body).length) :
    (handleOrderPaid body scrape).entry
        = .success (inputsOf body) (fieldsOf body) ("customer_override".toList)
            (overridePortsOf body) none
    ∧ (handleOrderPaid body scrape).scrapeCalled = false
    ∧ ∀ scrape2, handleOrderPaid body scrape2 = handleOrderPaid body scrape := by
  have hcond : portsChangedOf body = true ∧ 2 ≤ (overridePortsOf body).length := ⟨h1, h2⟩
  refine ⟨?_, ?_, ?_⟩
  · rw [handleOrderPaid, if_pos hcond]
  · rw [handleOrderPaid, if_pos hcond]
  · intro scrape2
    rw [handleOrderPaid, if_pos hcond, handleOrderPaid, if_pos hcond]

/-- C1 witness: a body with "Ports of Call Changed" = "Yes" and two
"Actual Port" fields takes the override branch. -/
theorem claim_C1_witness :
    portsChangedOf witBodyC1 = true ∧ 2 ≤ (overridePortsOf witBodyC1).length ∧
    (handleOrderPaid witBodyC1 scrFail).scrapeCalled = false :=
  ⟨by decide, by decide, (claim_C1 witBodyC1 scrFail (by decide) (by decide)).2.1⟩

/-- C9: the handler always answers status 200 with body "OK", for every
body and every behavior of the scrape call; and whenever the scrape branch
is taken and the scrape call fails with message `e`, the recorded entry is
the failure entry carrying `e`, the resolved inputs and the extracted
fields — the error is never propagated to the response. -/
theorem claim_C9 (body : WebhookBody) (scrape : ScrapeInput → Except Str ApifyPortsResult) :
    (handleOrderPaid body scrape).status = 200
    ∧ (handleOrderPaid body scrape).respBody = "OK".toList
    ∧ (∀ e, ¬(portsChangedOf body = true ∧ 2 ≤ (overridePortsOf body).length) →
        scrape (scrapeInputOf body) = .error e →
        (handleOrderPaid body scrape).entry = .failure e (inputsOf body) (fieldsOf body)) := by
  by_cases hcond : portsChangedOf body = true ∧ 2 ≤ (overridePortsOf body).length
  · refine ⟨?_, ?_, ?_⟩
    · rw [handleOrderPaid, if_pos hcond]
    · rw [handleOrderPaid, if_pos hcond]
    · intro e hn _
      exact absurd hcond hn
  · cases hs : scrape (scrapeInputOf body) with
    | ok r =>
      refine ⟨?_, ?_, ?_⟩
      · rw [handleOrderPaid, if_neg hcond, hs]
      · rw [handleOrderPaid, if_neg hcond, hs]
      · intro e _ he
        exact absurd he (by simp)
    | error e2 =>
      refine ⟨?_, ?_, ?_⟩
      · rw [handleOrderPaid, if_neg hcond, hs]
      · rw [handleOrderPaid, if_neg hcond, hs]
      · intro e _ he
        simp only [Except.error.injEq] at he
        subst he
        rw [handleOrderPaid, if_neg hcond, hs]

/-- C9 witness: on an empty body with a failing scrape call, the response
is still 200 and the failure entry carries the message, inputs and fields. -/
theorem claim_C9_witness :
    (handleOrderPaid witBodyC9 scrFail).status = 200
    ∧ (handleOrderPaid witBodyC9 scrFail).entry
        = .failure ("Apify returned no items.".toList) (inputsOf witBodyC9) (fieldsOf witBodyC9) :=
  ⟨(claim_C9 witBodyC9 scrFail).1,
   (claim_C9 witBodyC9 scrFail).2.2 ("Apify returned no items.".toList) (by decide) rfl⟩

theorem value_ne_nil {v : Str} (h : jsTrim v ≠ []) : v ≠ [] :=
  fun hv => h (by rw [hv]; rfl)

theorem truthy_getField_of_mem {fields : List LineItemProperty} {label : Str}
    {f : LineItemProperty} (hf : f ∈ fields)
    (hmatch : strIncludes (toLowerStr f.name) (toLowerStr label) = true)
    (hall : ∀ p ∈ fields, p.value ≠ []) :
    truthy (getField fields label) = true := by
  unfold getField
  have hex : ∃ x ∈ fields, (strIncludes (toLowerStr x.name) (toLowerStr label)) = true :=
    ⟨f, hf, hmatch⟩
  have hsome := List.find?_isSome.mpr hex
  cases hfind : fields.find? (fun g => strIncludes (toLowerStr g.name) (toLowerStr label)) with
  | none => rw [hfind] at hsome; simp at hsome
  | some g =>
    have hgv : g.value ≠ [] := hall g (List.mem_of_find?_eq_some hfind)
    simp [truthy, hgv]

/-- C10 (implicit): if some extracted field name contains, case-insensitively,
one of the three "ports changed" labels and that field's value is non-empty,
the resolved `portsChanged` flag is true — regardless of the value's content
(only string truthiness of the first matching field's value is tested, and
every extracted field value is non-empty). -/
theorem claim_C10 (body : WebhookBody)
    (h : ∃ f ∈ fieldsOf body,
        (strIncludes (toLowerStr f.name) ("ports of call changed".toList) = true ∨
         strIncludes (toLowerStr f.name) ("ports changed".toList) = true ∨
         strIncludes (toLowerStr f.name) ("my ports of call changed".toList) = true) ∧
        f.value ≠ []) :
    portsChangedOf body = true := by
  obtain ⟨f, hf, hph, _⟩ := h
  have hall : ∀ p ∈ fieldsOf body, p.value ≠ [] := fun p hp =>
    value_ne_nil (extract_values_ok _ p hp).2
  unfold portsChangedOf
  rcases hph with h1 | h2 | h3
  · have e1 : toLowerStr ("ports of call changed".toList) = "ports of call changed".toList := by
      decide
    have t1 : truthy (getField (fieldsOf body) ("ports of call changed".toList)) = true :=
      truthy_getField_of_mem hf (by rw [e1]; exact h1) hall
    rw [t1]
    simp
  · have e2 : toLowerStr ("ports changed".toList) = "ports changed".toList := by decide
    have t2 : truthy (getField (fieldsOf body) ("ports changed".toList)) = true :=
      truthy_getField_of_mem hf (by rw [e2]; exact h2) hall
    rw [t2]
    simp
  · have e3 : toLowerStr ("my ports of call changed".toList)
        = "my ports of call changed".toList := by decide
    have t3 : truthy (getField (fieldsOf body) ("my ports of call changed".toList)) = true :=
      truthy_getField_of_mem hf (by rw [e3]; exact h3) hall
    rw [t3]
    simp

/-- C10 witness: a field "My Ports of Call Changed?" with the negative
answer "No" still sets the flag. -/
theorem claim_C10_witness : portsChangedOf witBodyC10 = true :=
  claim_C10 witBodyC10 (by decide)

/-! ### C5: getActualPorts ordering -/

theorem getActualPorts_eq_sortedEntriesN (fields : List LineItemProperty) :
    getActualPorts fields = (sortedEntriesN fields).map (fun e => e.value) := by
  unfold getActualPorts sortedEntriesN keptEntriesN
  dsimp only
  rw [show (fields.filter actualPortPred).map
        (fun f => PortEntry.mk (ordOfName f.name) (jsTrim f.value))
      = ((fields.filter actualPortPred).map
          (fun f => PortEntryN.mk f.name (ordOfName f.name) (jsTrim f.value))).map
          (fun e => PortEntry.mk e.n e.value) from by
        rw [List.map_map]
        congr 1]
  rw [List.filter_map]
  rw [insertionSort_map (fun e : PortEntryN => PortEntry.mk e.n e.value)
    (fun a b : PortEntry => a.n ≤ b.n)]
  rw [List.map_map]
  rfl

theorem sortedEntriesN_sorted (fields : List LineItemProperty) :
    List.Pairwise (fun a b : PortEntryN => a.n ≤ b.n) (sortedEntriesN fields) := by
  unfold sortedEntriesN
  haveI : IsTotal PortEntryN (fun a b => a.n ≤ b.n) := ⟨fun a b => Nat.le_total a.n b.n⟩
  haveI : IsTrans PortEntryN (fun a b => a.n ≤ b.n) := ⟨fun a b c => Nat.le_trans⟩
  exact List.sorted_insertionSort _ _

theorem mem_keptEntriesN {fields : List LineItemProperty} {e : PortEntryN}
    (he : e ∈ sortedEntriesN fields) : e ∈ keptEntriesN fields := by
  unfold sortedEntriesN at he
  exact (List.perm_insertionSort _ _).subset he

/-- C5 (amended): the output of `getActualPorts` is the value list of the
sorted entries; the sorted entries are non-decreasing in the parsed
ordinal regardless of input order; the sort is stable (entries of each
ordinal keep their original relative order); every output value is
trimmed and non-empty; entries whose name has no digits get ordinal 9999
and therefore sort after every entry whose ordinal is below 9999 (the
claim's stronger "sort last" fails when an explicit ordinal of 10000 or
more is present, see the counterexample). -/
theorem claim_C5 (fields : List LineItemProperty) :
    getActualPorts fields = (sortedEntriesN fields).map (fun e => e.value)
    ∧ List.Pairwise (fun a b : PortEntryN => a.n ≤ b.n) (sortedEntriesN fields)
    ∧ (∀ k : Nat, (sortedEntriesN fields).filter (fun e => decide (e.n = k))
        = (keptEntriesN fields).filter (fun e => decide (e.n = k)))
    ∧ (∀ v ∈ getActualPorts fields, jsTrim v = v ∧ v ≠ [])
    ∧ (∀ e ∈ sortedEntriesN fields, firstDigitRun e.name = none → e.n = 9999)
    ∧ List.Pairwise (fun a b : PortEntryN => b.n < 9999 → a.n < 9999)
        (sortedEntriesN fields) := by
  refine ⟨getActualPorts_eq_sortedEntriesN fields, sortedEntriesN_sorted fields, ?_, ?_, ?_, ?_⟩
  · intro k
    exact filter_insertionSort_key (fun e => e.n) k (keptEntriesN fields)
  · intro v hv
    rw [getActualPorts_eq_sortedEntriesN] at hv
    obtain ⟨e, he, rfl⟩ := List.mem_map.mp hv
    have he2 := mem_keptEntriesN he
    unfold keptEntriesN at he2
    obtain ⟨hmem, hlen⟩ := List.mem_filter.mp he2
    obtain ⟨f, _, rfl⟩ := List.mem_map.mp hmem
    refine ⟨jsTrim_idem f.value, ?_⟩
    simp only [decide_eq_true_eq] at hlen
    show jsTrim f.value ≠ []
    intro hnil
    rw [hnil] at hlen
    simp at hlen
  · intro e he hnone
    have he2 := mem_keptEntriesN he
    unfold keptEntriesN at he2
    obtain ⟨hmem, _⟩ := List.mem_filter.mp he2
    obtain ⟨f, _, rfl⟩ := List.mem_map.mp hmem
    show ordOfName f.name = 9999
    unfold ordOfName
    rw [show firstDigitRun f.name = none from hnone]
  · exact (sortedEntriesN_sorted fields).imp (fun hab hb => lt_of_le_of_lt hab hb)

/-- C5 witness: the spec's scenario input, out of order, comes back
ordinal-sorted with trimmed non-empty values. -/
theorem claim_C5_witness :
    getActualPorts witFieldsC5 = ["Miami".toList, "Cozumel".toList]
    ∧ (jsTrim ("Miami".toList) = "Miami".toList ∧ "Miami".toList ≠ []) :=
  ⟨by decide, (claim_C5 witFieldsC5).2.2.2.1 ("Miami".toList) (by decide)⟩

/-- C5 counterexample: with fields "Actual Port" (no digits, ordinal 9999)
and "Actual Port 10000" (ordinal 10000), the no-digit entry sorts first,
not last, refuting the claim's "entries with no digits sort last". -/
theorem claim_C5_counterexample : ¬ claimC5NoDigitLast := by
  intro h
  have hc := h cexFieldsC5
  revert hc
  decide

/-! ### C3, C8: sailing matching and the no-ports error -/

theorem head?_filter_eq_find? {α : Type} (p : α → Bool) :
    ∀ l : List α, (l.filter p).head? = l.find? p
  | [] => rfl
  | a :: t => by
    by_cases h : p a
    · simp [List.filter_cons, List.find?_cons, h]
    · simp [List.filter_cons, List.find?_cons, h, head?_filter_eq_find? p t]

/-- C3: on a non-empty dataset the chosen record is the first record (in
dataset order) whose trimmed+lowercased `ship_name` equals the
trimmed+lowercased target and whose trimmed `cruise_date` equals
`toCruiseDateString sailDate` exactly (that conjunction is
`sailingMatches`); when no record matches, the chosen record is the first
record of the entire dataset. -/
theorem claim_C3 (items : List SailingRecord) (shipName sailDate : Option Str)
    (h : items ≠ []) :
    (∀ m, items.find? (sailingMatches shipName sailDate) = some m →
        chosenOf items shipName sailDate = some m)
    ∧ (items.find? (sailingMatches shipName sailDate) = none →
        chosenOf items shipName sailDate = items.head?) := by
  cases items with
  | nil => exact absurd rfl h
  | cons i0 rest =>
    constructor
    · intro m hm
      unfold chosenOf
      show some ((List.filter (sailingMatches shipName sailDate) (i0 :: rest)).headD i0)
        = some m
      have hh := head?_filter_eq_find? (sailingMatches shipName sailDate) (i0 :: rest)
      rw [hm] at hh
      cases hf : List.filter (sailingMatches shipName sailDate) (i0 :: rest) with
      | nil => rw [hf] at hh; simp at hh
      | cons c cs =>
        rw [hf] at hh
        simp only [List.head?_cons, Option.some.injEq] at hh
        simp [List.headD, hh]
    · intro hnone
      unfold chosenOf
      show some ((List.filter (sailingMatches shipName sailDate) (i0 :: rest)).headD i0)
        = (i0 :: rest).head?
      have hh := head?_filter_eq_find? (sailingMatches shipName sailDate) (i0 :: rest)
      rw [hnone] at hh
      cases hf2 : List.filter (sailingMatches shipName sailDate) (i0 :: rest) with
      | nil => rfl
      | cons c cs => rw [hf2] at hh; simp at hh

/-- C3 witness: a two-record dataset where only the second record matches
the target ship and date; the matcher picks the second record, not the
first. -/
theorem claim_C3_witness :
    chosenOf witItemsC3 (some ("Wonder of the Seas".toList)) (some ("2025-12-06".toList))
      = some recMatchC3 :=
  (claim_C3 witItemsC3 (some ("Wonder of the Seas".toList)) (some ("2025-12-06".toList))
    (by decide)).1 recMatchC3 (by decide)

/-- C8: on a non-empty dataset, `runApifyTaskAndGetPorts` fails with the
no-ports error message if and only if the chosen record's extracted port
list is empty, and that message carries the chosen record's key names
(joined with ", " after the fixed prefix). -/
theorem claim_C8 (items : List SailingRecord) (cl shipName sailDate : Option Str)
    (h : items ≠ []) :
    ∃ chosen, chosenOf items shipName sailDate = some chosen
    ∧ (runApifyTaskAndGetPorts items cl shipName sailDate = .error (noPortsMsg chosen)
        ↔ extractPortsFromStops chosen = [])
    ∧ noPortsMsg chosen = ("Could not extract ports. Chosen keys: ".toList)
        ++ List.intercalate (", ".toList) (chosen.map (fun p => p.1)) := by
  cases hc : chosenOf items shipName sailDate with
  | none =>
    exfalso
    cases items with
    | nil => exact h rfl
    | cons i0 rest => simp [chosenOf] at hc
  | some chosen =>
    refine ⟨chosen, rfl, ?_, rfl⟩
    simp only [runApifyTaskAndGetPorts, hc]
    by_cases hp : extractPortsFromStops chosen = []
    · rw [if_pos hp]
      simp [hp]
    · rw [if_neg hp]
      simp [hp]

/-- C8 witness: a record with no stop fields yields exactly the no-ports
error listing its single key name. -/
theorem claim_C8_witness :
    runApifyTaskAndGetPorts [witRecordC8] none none none
      = .error (noPortsMsg witRecordC8) := by
  obtain ⟨chosen, hc, hiff, _⟩ := claim_C8 [witRecordC8] none none none (by decide)
  have he : chosen = witRecordC8 := by
    have hc2 : chosenOf [witRecordC8] none none = some witRecordC8 := by decide
    rw [hc2] at hc
    simp at hc
    exact hc.symm
  subst he
  exact hiff.mpr (by decide)

/-! ### C2: extractPortsFromStops vs the spec's key pattern -/

theorem digit_ne_underscore {c : Char} (h : isDigitCh c = true) : c ≠ '_' :=
  fun hc => absurd (hc ▸ h) (by decide)

theorem splitOn_ne_nil (c : Char) : ∀ l : Str, splitOn c l ≠ []
  | [] => by simp [splitOn]
  | a :: t => by
    cases hs : splitOn c t with
    | nil => exact absurd hs (splitOn_ne_nil c t)
    | cons h t2 =>
      simp only [splitOn, hs]
      by_cases hac : a = c <;> simp [hac]

theorem splitOn_no_sep {c : Char} : ∀ {l : Str}, (∀ x ∈ l, x ≠ c) → splitOn c l = [l]
  | [], _ => rfl
  | a :: t, h => by
    have ht := @splitOn_no_sep c t (fun x hx => h x (List.mem_cons_of_mem a hx))
    simp only [splitOn, ht]
    rw [if_neg (h a (by simp))]

theorem splitOn_append_sep {c : Char} : ∀ {l r : Str}, (∀ x ∈ l, x ≠ c) →
    splitOn c (l ++ c :: r) = l :: splitOn c r
  | [], r, _ => by
    simp only [List.nil_append, splitOn]
    cases hs : splitOn c r with
    | nil => exact absurd hs (splitOn_ne_nil c r)
    | cons h t => simp
  | a :: l, r, h => by
    have ih := @splitOn_append_sep c l r (fun x hx => h x (List.mem_cons_of_mem a hx))
    simp only [List.cons_append, splitOn, List.append_eq, ih]
    rw [if_neg (h a (by simp))]

theorem isSpecStopKey_elim {k : Str} (h : isSpecStopKey k = true) :
    ∃ mid : Str, k = ("stop_".toList) ++ mid ++ ("_text".toList) ∧ mid ≠ [] ∧
      (∀ c ∈ mid, isDigitCh c = true) ∧ specOrdOf k = digitsVal mid := by
  unfold isSpecStopKey at h
  simp only [Bool.and_eq_true] at h
  obtain ⟨⟨hpre, hne⟩, heq⟩ := h
  obtain ⟨t, ht⟩ := List.isPrefixOf_iff_prefix.mp hpre
  have hlen5 : ("stop_".toList).length = 5 := rfl
  have hdrop5 : k.drop 5 = t := by
    rw [← ht, ← hlen5]
    exact List.drop_left ("stop_".toList) t
  have hmid_ne : t.takeWhile isDigitCh ≠ [] := by
    rw [hdrop5] at hne
    simpa using hne
  have hdw : t.dropWhile isDigitCh = "_text".toList := by
    rw [hdrop5] at heq
    simpa using heq
  have hsplit : t = t.takeWhile isDigitCh ++ ("_text".toList) := by
    have e := List.takeWhile_append_dropWhile isDigitCh t
    rw [hdw] at e
    exact e.symm
  refine ⟨t.takeWhile isDigitCh, ?_, hmid_ne,
    fun c hc => List.mem_takeWhile_imp hc, ?_⟩
  · rw [← ht]
    conv_lhs => rw [hsplit]
    rw [← List.append_assoc]
  · unfold specOrdOf
    rw [hdrop5]

theorem spec_imp_stop {k : Str} (h : isSpecStopKey k = true) : isStopKey k = true := by
  obtain ⟨mid, rfl, _, _, _⟩ := isSpecStopKey_elim h
  unfold isStopKey
  rw [Bool.and_eq_true]
  constructor
  · exact List.isPrefixOf_iff_prefix.mpr ⟨mid ++ ("_text".toList), by simp⟩
  · exact List.isSuffixOf_iff_suffix.mpr ⟨("stop_".toList) ++ mid, by simp⟩

theorem stopOrd_of_spec {k : Str} (h : isSpecStopKey k = true) :
    stopOrd k = some ((specOrdOf k : Nat) : Int) := by
  obtain ⟨mid, rfl, hne, hdig, hord⟩ := isSpecStopKey_elim h
  rw [hord]
  unfold stopOrd
  have h1 : ("stop_".toList) ++ mid ++ ("_text".toList)
      = ("stop".toList) ++ '_' :: (mid ++ '_' :: ("text".toList)) := by simp
  have hsp : splitOn '_' (("stop_".toList) ++ mid ++ ("_text".toList))
      = ["stop".toList, mid, "text".toList] := by
    rw [h1]
    rw [splitOn_append_sep (by decide)]
    rw [splitOn_append_sep (fun x hx => digit_ne_underscore (hdig x hx))]
    rw [splitOn_no_sep (by decide)]
  rw [hsp]
  show parseIntJS mid = some ((digitsVal mid : Nat) : Int)
  exact parseIntJS_all_digits hne hdig

/-- C2 (amended): `extractPortsFromStops` selects exactly the keys that
start with "stop_" and end with "_text" (not only those whose middle is a
numeric ordinal — see the counterexample); restricted to records whose
selected keys all match the spec's `stop_<n>_text` pattern, it agrees with
the spec-modelled extraction: keys sorted ascending by the numeric
ordinal, values trimmed, empties omitted, and a case-insensitive
"Departing from " prefix stripped. -/
theorem claim_C2 (r : SailingRecord)
    (h : ∀ k ∈ stopKeysOf r, isSpecStopKey k = true) :
    extractPortsFromStops r = specExtractPorts r
    ∧ List.Pairwise (fun a b : Str => specOrdOf a ≤ specOrdOf b) (specSortedKeys r) := by
  have hkeys : specStopKeys r = stopKeysOf r := by
    unfold specStopKeys stopKeysOf
    apply List.filter_congr
    intro a ha
    cases hstop : isStopKey a with
    | true =>
      have : a ∈ stopKeysOf r := List.mem_filter.mpr ⟨ha, hstop⟩
      rw [h a this]
    | false =>
      cases hspec : isSpecStopKey a with
      | true => rw [spec_imp_stop hspec] at hstop; exact absurd hstop (by simp)
      | false => rfl
  have hcongr : List.insertionSort (fun a b => stopCmpLe a b = true) (stopKeysOf r)
      = List.insertionSort (fun a b : Str => specOrdOf a ≤ specOrdOf b) (stopKeysOf r) := by
    apply insertionSort_congr
    intro a ha b hb
    have hsa := stopOrd_of_spec (h a ha)
    have hsb := stopOrd_of_spec (h b hb)
    simp only [stopCmpLe, hsa, hsb, decide_eq_true_eq]
    exact Int.ofNat_le
  constructor
  · unfold extractPortsFromStops specExtractPorts specSortedKeys
    dsimp only
    rw [hkeys, hcongr]
  · unfold specSortedKeys
    haveI : IsTotal Str (fun a b => specOrdOf a ≤ specOrdOf b) :=
      ⟨fun a b => Nat.le_total _ _⟩
    haveI : IsTrans Str (fun a b => specOrdOf a ≤ specOrdOf b) :=
      ⟨fun a b c => Nat.le_trans⟩
    exact List.sorted_insertionSort _ _

/-- C2 counterexample: the key "stop_x_text" has no numeric ordinal, so
the spec-modelled extraction drops it, but the code selects it and returns
its value — the claim's "selects exactly the keys matching stop_<n>_text
where <n> is a numeric ordinal" is false as stated. -/
theorem claim_C2_counterexample :
    ¬ (∀ r : SailingRecord, extractPortsFromStops r = specExtractPorts r) :=
  fun h => absurd (h cexRecordC2) (by decide)

/-- C2 witness: the spec's scenario record, whose keys are all of the
spec's shape, including the "Departing from " strip and the empty
`stop_3_text` omission. -/
theorem claim_C2_witness :
    extractPortsFromStops witRecordC2 = specExtractPorts witRecordC2
    ∧ extractPortsFromStops witRecordC2 = ["Miami".toList, "Cozumel".toList] :=
  ⟨(claim_C2 witRecordC2 (by decide)).1, by decide⟩

/-! ### C6: display-date round trip -/

theorem char_eq_of_toNat {c d : Char} (h : c.toNat = d.toNat) : c = d := by
  have h1 := Char.ofNat_toNat c
  have h2 := Char.ofNat_toNat d
  rw [h] at h1
  exact h1.symm.trans h2

theorem dv_pos {c : Char} (hd : isDigitCh c = true) (h0 : c ≠ '0') : 1 ≤ dv c := by
  simp only [isDigitCh, Bool.and_eq_true, decide_eq_true_eq] at hd
  by_contra hlt
  push_neg at hlt
  have h48 : c.toNat = 48 := by unfold dv at hlt; omega
  exact h0 (char_eq_of_toNat (by rw [h48]; rfl))

theorem digitsVal_two (c1 c2 : Char) : digitsVal [c1, c2] = 10 * dv c1 + dv c2 := by
  simp only [digitsVal, List.foldl_cons, List.foldl_nil]
  omega

theorem digitsVal_four (c1 c2 c3 c4 : Char) :
    digitsVal [c1, c2, c3, c4] = 1000 * dv c1 + 100 * dv c2 + 10 * dv c3 + dv c4 := by
  simp only [digitsVal, List.foldl_cons, List.foldl_nil]
  omega

theorem takeWhile_append_stop {p : Char → Bool} : ∀ (l : Str) (x : Char) (r : Str),
    (∀ c ∈ l, p c = true) → p x = false →
    ((l ++ x :: r).takeWhile p) = l
  | [], x, r, _, hx => by simp [List.takeWhile_cons, hx]
  | a :: l, x, r, h, hx => by
    have ha : p a = true := h a (by simp)
    simp only [List.cons_append, List.takeWhile_cons, ha, if_true]
    rw [takeWhile_append_stop l x r (fun c hc => h c (List.mem_cons_of_mem a hc)) hx]

theorem mdyMatch_of_isoTest {s : Str} (h : isoTest s = true) : mdyMatch s = none := by
  obtain ⟨y1, y2, y3, y4, m1, m2, d1, d2, rfl, h1, h2, h3, h4, _, _, _, _⟩ := isoTest_elim h
  have ht : (([y1, y2, y3, y4, '-', m1, m2, '-', d1, d2] : Str).takeWhile isDigitCh)
      = [y1, y2, y3, y4] := by
    have e := takeWhile_append_stop [y1, y2, y3, y4] '-' [m1, m2, '-', d1, d2]
      (by
        intro c hc
        simp at hc
        rcases hc with rfl | rfl | rfl | rfl
        exacts [h1, h2, h3, h4])
      (by decide)
    exact e
  unfold mdyMatch
  rw [ht, if_pos (Or.inr (by simp))]

theorem month_table_facts : ∀ i : Nat, i < 12 →
    (months.getD i []).length = 3 ∧ months.getD i [] ∈ months := by
  intro i h
  interval_cases i <;> exact ⟨by decide, by decide⟩

theorem monthsGet_valid {mv : Nat} (h1 : 1 ≤ mv) (h12 : mv ≤ 12) :
    (monthsGet ((mv : Int) - 1)).length = 3 ∧ monthsGet ((mv : Int) - 1) ∈ months := by
  unfold monthsGet
  rw [if_pos (by constructor <;> omega)]
  exact month_table_facts _ (by omega)

theorem isDisplayDate_of_form {yv : Nat} {mon dd2 : Str}
    (hy1000 : 1000 ≤ yv) (hy9999 : yv ≤ 9999)
    (hmon3 : mon.length = 3) (hmem : mon ∈ months)
    (hdd : dd2.length = 2) (hddg : ∀ c ∈ dd2, isDigitCh c = true) :
    isDisplayDate (natToDec yv ++ ' ' :: (mon ++ ' ' :: dd2)) = true := by
  obtain ⟨e1, e2, rfl⟩ := length_eq_two hdd
  have hylen : (natToDec yv).length = 4 := by
    refine natToDec_length 3 yv ?_ ?_
    · norm_num
      omega
    · norm_num
      omega
  unfold isDisplayDate
  rw [takeWhile_append_stop (natToDec yv) ' ' (mon ++ ' ' :: [e1, e2])
    (natToDec_digits yv) (by decide)]
  rw [show ((natToDec yv ++ ' ' :: (mon ++ ' ' :: [e1, e2])).drop 4)
      = ' ' :: (mon ++ ' ' :: [e1, e2]) from by
    rw [← hylen]
    exact List.drop_left _ _]
  rw [hylen]
  dsimp only
  rw [show ((mon ++ ' ' :: [e1, e2]).take 3) = mon from by
    rw [← hmon3]
    exact List.take_left _ _]
  rw [show ((mon ++ ' ' :: [e1, e2]).drop 3) = (' ' :: [e1, e2] : Str) from by
    rw [← hmon3]
    exact List.drop_left _ _]
  simp [hmem, hddg e1 (by simp), hddg e2 (by simp)]

theorem jsOrNum_pos {n : Nat} (h : 1 ≤ n) : jsOrNum (some (n : Int)) 1 = (n : Int) := by
  show (if (n : Int) = 0 then 1 else (n : Int)) = (n : Int)
  rw [if_neg (by omega)]

theorem numToStr_nat (n : Nat) : numToStr (some (n : Int)) = natToDec n := by
  show (if (n : Int) < 0 then '-' :: natToDec (Int.natAbs (n : Int))
    else natToDec ((n : Int)).toNat) = natToDec n
  rw [if_neg (by omega), Int.toNat_natCast]

theorem padStart_int (n : Nat) : padStart2 (intToDec (n : Int)) = pad2 n := by
  unfold intToDec pad2
  rw [if_neg (by omega), Int.toNat_natCast]

theorem toCruise_display {y ms ds : Str}
    (hy4 : y.length = 4) (hyd : ∀ c ∈ y, isDigitCh c = true) (hy0 : y.headD '0' ≠ '0')
    (hms2 : ms.length = 2) (hmsd : ∀ c ∈ ms, isDigitCh c = true)
    (hm1 : 1 ≤ digitsVal ms) (hm12 : digitsVal ms ≤ 12)
    (hds2 : ds.length = 2) (hdsd : ∀ c ∈ ds, isDigitCh c = true)
    (hd1 : 1 ≤ digitsVal ds) (hd31 : digitsVal ds ≤ 31) :
    isDisplayDate (toCruiseDateString (y ++ '-' :: ms ++ '-' :: ds)) = true := by
  obtain ⟨y1, y2, y3, y4, rfl⟩ := length_eq_four hy4
  obtain ⟨a1, a2, rfl⟩ := length_eq_two hms2
  obtain ⟨b1, b2, rfl⟩ := length_eq_two hds2
  have hinput : ((([y1, y2, y3, y4] : Str) ++ '-' :: [a1, a2]) ++ '-' :: [b1, b2])
      = ([y1, y2, y3, y4] : Str) ++ '-' :: (([a1, a2] : Str) ++ '-' :: [b1, b2]) := by
    simp
  rw [hinput]
  have hsp : splitOn '-' (([y1, y2, y3, y4] : Str) ++ '-' :: (([a1, a2] : Str) ++ '-' :: [b1, b2]))
      = [[y1, y2, y3, y4], [a1, a2], [b1, b2]] := by
    rw [@splitOn_append_sep '-' [y1, y2, y3, y4] _ (fun c hc => digit_ne_dash (hyd c hc))]
    rw [@splitOn_append_sep '-' [a1, a2] _ (fun c hc => digit_ne_dash (hmsd c hc))]
    rw [@splitOn_no_sep '-' [b1, b2] (fun c hc => digit_ne_dash (hdsd c hc))]
  have hy1ne : y1 ≠ '0' := by simpa using hy0
  have p1 := dv_pos (hyd y1 (by simp)) hy1ne
  have q1 := dv_lt_ten (hyd y1 (by simp))
  have q2 := dv_lt_ten (hyd y2 (by simp))
  have q3 := dv_lt_ten (hyd y3 (by simp))
  have q4 := dv_lt_ten (hyd y4 (by simp))
  have hyb1 : 1000 ≤ digitsVal [y1, y2, y3, y4] := by rw [digitsVal_four]; omega
  have hyb2 : digitsVal [y1, y2, y3, y4] ≤ 9999 := by rw [digitsVal_four]; omega
  unfold toCruiseDateString
  rw [if_neg (by simp)]
  simp only [hsp, List.length_cons, List.length_nil]
  rw [if_neg (by omega)]
  have g0 : ([[y1, y2, y3, y4], [a1, a2], [b1, b2]] : List Str).getD 0 [] = [y1, y2, y3, y4] := rfl
  have g1 : ([[y1, y2, y3, y4], [a1, a2], [b1, b2]] : List Str).getD 1 [] = [a1, a2] := rfl
  have g2 : ([[y1, y2, y3, y4], [a1, a2], [b1, b2]] : List Str).getD 2 [] = [b1, b2] := rfl
  rw [g0, g1, g2]
  rw [parseIntJS_all_digits (by simp) hyd, parseIntJS_all_digits (by simp) hmsd,
    parseIntJS_all_digits (by simp) hdsd]
  rw [jsOrNum_pos hm1, jsOrNum_pos hd1]
  rw [numToStr_nat, padStart_int]
  rw [List.append_assoc, List.cons_append]
  obtain ⟨hmon3, hmem⟩ := monthsGet_valid hm1 hm12
  obtain ⟨hddl, hddg⟩ := pad2_two_digits (show digitsVal [b1, b2] < 100 by omega)
  exact isDisplayDate_of_form hyb1 hyb2 hmon3 hmem hddl hddg

/-- C6: for every valid MM/DD/YYYY or YYYY-MM-DD input, the composition
`toCruiseDateString ∘ normalizeDateToYyyyMmDd` produces a string of the
shape "YYYY Mon DD" (4-digit year, an entry of the fixed Jan..Dec table,
zero-padded 2-digit day); in particular "12/06/2025" normalizes to
"2025-12-06" and displays as "2025 Dec 06". -/
theorem claim_C6 :
    (∀ d : Str, validDateInput d = true →
        isDisplayDate (toCruiseDateString (normalizeDateToYyyyMmDd d)) = true)
    ∧ normalizeDateToYyyyMmDd ("12/06/2025".toList) = "2025-12-06".toList
    ∧ toCruiseDateString ("2025-12-06".toList) = "2025 Dec 06".toList := by
  refine ⟨?_, by decide, by decide⟩
  intro d hv
  unfold validDateInput at hv
  rw [Bool.or_eq_true] at hv
  cases hv with
  | inl hmdy =>
    unfold validMdy at hmdy
    cases hm : mdyMatch (jsTrim d) with
    | none => rw [hm] at hmdy; simp at hmdy
    | some triple =>
      obtain ⟨m, triple2⟩ := triple
      obtain ⟨dd, y⟩ := triple2
      rw [hm] at hmdy
      simp only [Bool.and_eq_true, decide_eq_true_eq] at hmdy
      obtain ⟨⟨⟨⟨hm1, hm12⟩, hd1⟩, hd31⟩, hy0⟩ := hmdy
      obtain ⟨_, hmdig, hddig, hydig, _, hmlen, _, hdlen, hylen⟩ := mdyMatch_elim hm
      have hne : d ≠ [] := by
        intro h0
        rw [h0] at hm
        have hnone : mdyMatch (jsTrim []) = none := by decide
        rw [hnone] at hm
        exact absurd hm (by simp)
      have hiso : isoTest (jsTrim d) = false := by
        cases hisot : isoTest (jsTrim d) with
        | false => rfl
        | true => rw [mdyMatch_of_isoTest hisot] at hm; exact absurd hm (by simp)
      have e : normalizeDateToYyyyMmDd d
          = y ++ '-' :: pad2 (digitsVal m) ++ '-' :: pad2 (digitsVal dd) := by
        simp only [normalizeDateToYyyyMmDd, if_neg hne, hiso, hm]
        simp
      rw [e]
      obtain ⟨hpl, hpd⟩ := pad2_two_digits (digitsVal_lt_100 hmdig hmlen)
      obtain ⟨hql, hqd⟩ := pad2_two_digits (digitsVal_lt_100 hddig hdlen)
      refine toCruise_display hylen hydig hy0 hpl hpd ?_ ?_ hql hqd ?_ ?_
      · rw [digitsVal_pad2 (digitsVal_lt_100 hmdig hmlen)]
        exact hm1
      · rw [digitsVal_pad2 (digitsVal_lt_100 hmdig hmlen)]
        exact hm12
      · rw [digitsVal_pad2 (digitsVal_lt_100 hddig hdlen)]
        exact hd1
      · rw [digitsVal_pad2 (digitsVal_lt_100 hddig hdlen)]
        exact hd31
  | inr hiso =>
    unfold validIso at hiso
    simp only [Bool.and_eq_true, decide_eq_true_eq] at hiso
    obtain ⟨⟨⟨⟨⟨hisot, hh0⟩, hm1⟩, hm12⟩, hd1⟩, hd31⟩ := hiso
    have hne : d ≠ [] := by
      intro h0
      rw [h0] at hisot
      exact absurd hisot (by decide)
    obtain ⟨y1, y2, y3, y4, m1, m2, dd1, dd2, hshape, k1, k2, k3, k4, k5, k6, k7, k8⟩ :=
      isoTest_elim hisot
    have e : normalizeDateToYyyyMmDd d = jsTrim d := by
      simp only [normalizeDateToYyyyMmDd, if_neg hne, if_pos hisot]
    rw [e, hshape]
    rw [hshape] at hh0 hm1 hm12 hd1 hd31
    have r5 : (([y1, y2, y3, y4, '-', m1, m2, '-', dd1, dd2] : Str).getD 5 '0') = m1 := rfl
    have r6 : (([y1, y2, y3, y4, '-', m1, m2, '-', dd1, dd2] : Str).getD 6 '0') = m2 := rfl
    have r8 : (([y1, y2, y3, y4, '-', m1, m2, '-', dd1, dd2] : Str).getD 8 '0') = dd1 := rfl
    have r9 : (([y1, y2, y3, y4, '-', m1, m2, '-', dd1, dd2] : Str).getD 9 '0') = dd2 := rfl
    have rh : (([y1, y2, y3, y4, '-', m1, m2, '-', dd1, dd2] : Str).headD '0') = y1 := rfl
    rw [r5, r6] at hm1 hm12
    rw [r8, r9] at hd1 hd31
    rw [rh] at hh0
    have happ : (([y1, y2, y3, y4, '-', m1, m2, '-', dd1, dd2]) : Str)
        = (([y1, y2, y3, y4] : Str) ++ '-' :: [m1, m2] ++ '-' :: [dd1, dd2]) := by simp
    rw [happ]
    refine toCruise_display (by simp) ?_ (by simpa using hh0) (by simp) ?_ ?_ ?_
      (by simp) ?_ ?_ ?_
    · intro c hc
      simp at hc
      rcases hc with rfl | rfl | rfl | rfl
      exacts [k1, k2, k3, k4]
    · intro c hc
      simp at hc
      rcases hc with rfl | rfl
      exacts [k5, k6]
    · rw [digitsVal_two]
      exact hm1
    · rw [digitsVal_two]
      exact hm12
    · intro c hc
      simp at hc
      rcases hc with rfl | rfl
      exacts [k7, k8]
    · rw [digitsVal_two]
      exact hd1
    · rw [digitsVal_two]
      exact hd31

/-- C6 witness: a concrete valid MM/DD/YYYY input round-trips into the
display shape. -/
theorem claim_C6_witness :
    validDateInput ("04/05/1999".toList) = true
    ∧ isDisplayDate (toCruiseDateString (normalizeDateToYyyyMmDd ("04/05/1999".toList)))
        = true :=
  ⟨by decide, claim_C6.1 ("04/05/1999".toList) (by decide)⟩
